import Mathlib

set_option maxRecDepth 100000

/-!
Verification of `security-auditor/fix-symbols.py`.

The program reads a file as a byte buffer, replaces every occurrence of a
hardcoded 152-byte symbol-name pattern with a short name null-padded to the
same length, derives an output path from the input path by a substring
substitution on `.so`, and writes the modified buffer there.  Bytes are
modelled as `Nat`, byte buffers as `List Nat`, path strings as `List Char`,
and the file system as a partial map from paths to contents.
-/

namespace FixSymbols

/-- Bool test that the list `l` starts with the pattern `p` (the
`startswith` check used to locate occurrences of a pattern in a buffer). -/
def startsWith {α : Type} [DecidableEq α] : List α → List α → Bool
  | [], _ => true
  | _ :: _, [] => false
  | p :: ps, a :: as => decide (p = a) && startsWith ps as

/-- Fuelled scanner implementing Python's `replace` loop (all occurrences,
leftmost, non-overlapping): at each position, if the old pattern starts
here, emit `new` and skip past the pattern, otherwise copy one element.
Any `fuel ≥ l.length` gives the same result (proved below), so the fuel is
only a structural-termination device. -/
def replaceAux {α : Type} [DecidableEq α] (old new : List α) : Nat → List α → List α
  | _, [] => []
  | 0, l => l
  | fuel + 1, a :: rest =>
    if startsWith old (a :: rest) then
      new ++ replaceAux old new fuel ((a :: rest).drop old.length)
    else
      a :: replaceAux old new fuel rest

/-- Python's `data.replace(old, new)`: replace every occurrence of `old` by
`new`.  The empty-pattern arm mirrors Python's insertion of `new` at every
position; the program only ever calls `replace` with fixed non-empty
patterns. -/
def pyReplace {α : Type} [DecidableEq α] (old new data : List α) : List α :=
  match old with
  | [] => new ++ (data.map fun a => a :: new).flatten
  | _ :: _ => replaceAux old new data.length data

/-- The hardcoded old search pattern of fix-symbols.py line 12:
`b'.bss._ZN98_$LT$switchboard_solana..program_id..SWITCHBOARD_PROGRAM_ID$u20$as$u20$core..ops..deref..Deref$GT$5deref11__stability4LAZY17ha3b89edb3e526ca9E'`,
as its list of byte values. -/
def old_pattern : List Nat := [46, 98, 115, 115, 46, 95, 90, 78, 57, 56, 95, 36, 76, 84, 36, 115, 119, 105, 116, 99, 104, 98, 111, 97, 114, 100, 95, 115, 111, 108, 97, 110, 97, 46, 46, 112, 114, 111, 103, 114, 97, 109, 95, 105, 100, 46, 46, 83, 87, 73, 84, 67, 72, 66, 79, 65, 82, 68, 95, 80, 82, 79, 71, 82, 65, 77, 95, 73, 68, 36, 117, 50, 48, 36, 97, 115, 36, 117, 50, 48, 36, 99, 111, 114, 101, 46, 46, 111, 112, 115, 46, 46, 100, 101, 114, 101, 102, 46, 46, 68, 101, 114, 101, 102, 36, 71, 84, 36, 53, 100, 101, 114, 101, 102, 49, 49, 95, 95, 115, 116, 97, 98, 105, 108, 105, 116, 121, 52, 76, 65, 90, 89, 49, 55, 104, 97, 51, 98, 56, 57, 101, 100, 98, 51, 101, 53, 50, 54, 99, 97, 57, 69]

/-- The short replacement `b'.bss._ZN_short'` of line 13, before padding. -/
def new_pattern_short : List Nat := [46, 98, 115, 115, 46, 95, 90, 78, 95, 115, 104, 111, 114, 116]

/-- Line 16: the replacement padded with null bytes to the old pattern's
exact length. -/
def new_pattern : List Nat :=
  new_pattern_short ++ List.replicate (old_pattern.length - new_pattern_short.length) 0

/-- The literal `'.so'` searched for in the input path (line 21). -/
def soStr : List Char := ".so".toList

/-- The literal `'_fixed.so'` substituted into the path (line 21). -/
def fixedStr : List Char := "_fixed.so".toList

/-- Lines 12–26 of fix-symbols.py: given the input path and the bytes read
from it, produce the derived output path and the modified buffer.  The
file-system write itself is modelled in `runMain`. -/
def shorten_symbol_names (file_path : List Char) (data : List Nat) :
    List Char × List Nat :=
  let modified_data := pyReplace old_pattern new_pattern data
  let output_path := pyReplace soStr fixedStr file_path
  (output_path, modified_data)

/-- Observable outcome of one run of the script: exit status, the resulting
file system, the paths read, and the lines printed. -/
structure RunResult where
  exitCode : Nat
  fs : List Char → Option (List Nat)
  reads : List (List Char)
  printed : List (List Char)

/-- Lines 28–39 of fix-symbols.py.  The file system maps paths to byte
contents; `os.path.exists p` is modelled as `(fs p).isSome`.  `argv`
includes the program name in position 0, as `sys.argv` does. -/
def runMain (argv : List (List Char)) (fs : List Char → Option (List Nat)) :
    RunResult :=
  if argv.length ≠ 2 then
    ⟨1, fs, [], ["Usage: python fix-symbols.py <path_to_so_file>".toList]⟩
  else
    let file_path := argv.getD 1 []
    match fs file_path with
    | none =>
      ⟨1, fs, [], ["Error: File ".toList ++ file_path ++ " not found".toList]⟩
    | some data =>
      let r := shorten_symbol_names file_path data
      ⟨0, fun p => if p = r.1 then some r.2 else fs p, [file_path],
        ["Fixed file written to: ".toList ++ r.1,
         "Successfully shortened symbol names in ".toList ++ r.1]⟩

/-- Replacement of only the first occurrence, as the spec describes the
output-path derivation ("replace first occurrence of the literal substring
`.so`").  Stated from the spec's words, for comparison with the source's
`pyReplace`. -/
def replaceFirstSpec {α : Type} [DecidableEq α] (old new : List α) : List α → List α
  | [] => []
  | a :: rest =>
    if startsWith old (a :: rest) then
      new ++ (a :: rest).drop old.length
    else
      a :: replaceFirstSpec old new rest

theorem startsWith_iff {α : Type} [DecidableEq α] (p l : List α) :
    startsWith p l = true ↔ p.length ≤ l.length ∧ l.take p.length = p := by
  induction p generalizing l with
  | nil => simp [startsWith]
  | cons x ps ih =>
    cases l with
    | nil => simp [startsWith]
    | cons a as =>
      simp only [startsWith, Bool.and_eq_true, decide_eq_true_eq, ih,
        List.length_cons, Nat.add_le_add_iff_right, List.take_succ_cons,
        List.cons.injEq]
      constructor
      · rintro ⟨h1, h2, h3⟩
        exact ⟨h2, h1.symm, h3⟩
      · rintro ⟨h1, h2, h3⟩
        exact ⟨h2.symm, h1, h3⟩

theorem startsWith_self_append {α : Type} [DecidableEq α] (p t : List α) :
    startsWith p (p ++ t) = true := by
  induction p with
  | nil => rfl
  | cons x ps ih => simp [startsWith, ih]

theorem startsWith_nil {α : Type} [DecidableEq α] (p : List α) (hp : p ≠ []) :
    startsWith p ([] : List α) = false := by
  cases p with
  | nil => exact absurd rfl hp
  | cons x ps => rfl

theorem startsWith_length_le {α : Type} [DecidableEq α] {p l : List α}
    (h : startsWith p l = true) : p.length ≤ l.length :=
  ((startsWith_iff p l).1 h).1

theorem startsWith_take_eq {α : Type} [DecidableEq α] {p l : List α}
    (h : startsWith p l = true) : l.take p.length = p :=
  ((startsWith_iff p l).1 h).2

theorem noOccAll {α : Type} [DecidableEq α] (p l : List α) (hp : p ≠ [])
    (h : ∀ i, i < l.length → startsWith p (l.drop i) = false) :
    ∀ i, startsWith p (l.drop i) = false := by
  intro i
  by_cases hi : i < l.length
  · exact h i hi
  · rw [List.drop_eq_nil_of_le (Nat.le_of_not_lt hi)]
    exact startsWith_nil p hp

theorem length_drop_cons_le {α : Type} (old : List α) (hne : old ≠ [])
    (a : α) (rest : List α) :
    ((a :: rest).drop old.length).length ≤ rest.length := by
  have holen : 0 < old.length := List.length_pos.2 hne
  rw [List.length_drop]
  simp only [List.length_cons]
  omega

theorem replaceAux_fuel {α : Type} [DecidableEq α] (old new : List α) (hne : old ≠ []) :
    ∀ fuel₁ fuel₂ l, l.length ≤ fuel₁ → l.length ≤ fuel₂ →
      replaceAux old new fuel₁ l = replaceAux old new fuel₂ l := by
  intro fuel₁
  induction fuel₁ with
  | zero =>
    intro fuel₂ l h1 _
    have hl : l = [] := List.eq_nil_of_length_eq_zero (Nat.le_zero.1 h1)
    subst hl
    cases fuel₂ <;> rfl
  | succ f ih =>
    intro fuel₂ l h1 h2
    cases l with
    | nil => cases fuel₂ <;> rfl
    | cons a rest =>
      cases fuel₂ with
      | zero => simp at h2
      | succ g =>
        simp only [List.length_cons] at h1 h2
        simp only [replaceAux]
        by_cases hp : startsWith old (a :: rest) = true
        · rw [if_pos hp, if_pos hp]
          have hd := length_drop_cons_le old hne a rest
          rw [ih g ((a :: rest).drop old.length) (by omega) (by omega)]
        · rw [if_neg hp, if_neg hp]
          rw [ih g rest (by omega) (by omega)]

theorem replaceAux_length {α : Type} [DecidableEq α] (old new : List α) (hne : old ≠ [])
    (hlen : new.length = old.length) :
    ∀ fuel l, l.length ≤ fuel → (replaceAux old new fuel l).length = l.length := by
  intro fuel
  induction fuel with
  | zero =>
    intro l h1
    have hl : l = [] := List.eq_nil_of_length_eq_zero (Nat.le_zero.1 h1)
    subst hl
    rfl
  | succ f ih =>
    intro l h1
    cases l with
    | nil => rfl
    | cons a rest =>
      simp only [List.length_cons] at h1
      simp only [replaceAux]
      by_cases hp : startsWith old (a :: rest) = true
      · rw [if_pos hp]
        have hd := length_drop_cons_le old hne a rest
        have hple := startsWith_length_le hp
        simp only [List.length_cons] at hple
        rw [List.length_append, ih _ (by omega)]
        rw [List.length_drop]
        simp only [List.length_cons]
        omega
      · rw [if_neg hp]
        simp only [List.length_cons]
        rw [ih rest (by omega)]

theorem replaceAux_id {α : Type} [DecidableEq α] (old new : List α) :
    ∀ fuel l, (∀ i, startsWith old (l.drop i) = false) →
      replaceAux old new fuel l = l := by
  intro fuel
  induction fuel with
  | zero => intro l _; cases l <;> rfl
  | succ f ih =>
    intro l h
    cases l with
    | nil => rfl
    | cons a rest =>
      have h0 := h 0
      rw [List.drop_zero] at h0
      simp only [replaceAux]
      rw [if_neg (by simp [h0])]
      rw [ih rest fun i => by
        have := h (i + 1)
        rwa [List.drop_succ_cons] at this]

theorem replaceAux_occ {α : Type} [DecidableEq α] (old new : List α) (hne : old ≠ [])
    (hlen : new.length = old.length)
    (hbf : ∀ j, j < old.length → 0 < j → old.take j ≠ old.drop (old.length - j)) :
    ∀ fuel l i, l.length ≤ fuel → startsWith old (l.drop i) = true →
      startsWith new ((replaceAux old new fuel l).drop i) = true := by
  intro fuel
  induction fuel with
  | zero =>
    intro l i h1 hocc
    have hl : l = [] := List.eq_nil_of_length_eq_zero (Nat.le_zero.1 h1)
    subst hl
    rw [List.drop_nil, startsWith_nil old hne] at hocc
    exact absurd hocc (by simp)
  | succ f ih =>
    intro l i h1 hocc
    cases l with
    | nil =>
      rw [List.drop_nil, startsWith_nil old hne] at hocc
      exact absurd hocc (by simp)
    | cons a rest =>
      simp only [List.length_cons] at h1
      have holen : 0 < old.length := List.length_pos.2 hne
      simp only [replaceAux]
      by_cases hp : startsWith old (a :: rest) = true
      · rw [if_pos hp]
        rcases Nat.eq_zero_or_pos i with rfl | hipos
        · rw [List.drop_zero]
          exact startsWith_self_append new _
        · rcases Nat.lt_or_ge i old.length with hilt | hige
          · exfalso
            have h2 := startsWith_take_eq hp
            have h3 := startsWith_take_eq hocc
            have key1 : old.drop i = ((a :: rest).drop i).take (old.length - i) := by
              conv_lhs => rw [← h2]
              rw [List.drop_take]
            have key2 : old.take (old.length - i) = ((a :: rest).drop i).take (old.length - i) := by
              calc old.take (old.length - i)
                  = (((a :: rest).drop i).take old.length).take (old.length - i) := by
                    rw [h3]
                _ = ((a :: rest).drop i).take ((old.length - i) ⊓ old.length) := by
                    rw [List.take_take]
                _ = ((a :: rest).drop i).take (old.length - i) := by
                    rw [inf_eq_left.2 (show old.length - i ≤ old.length by omega)]
            refine hbf (old.length - i) (by omega) (by omega) ?_
            rw [key2, ← key1]
            congr 1
            omega
          · rw [List.drop_append_eq_append_drop]
            rw [List.drop_eq_nil_of_le (by omega : new.length ≤ i)]
            rw [List.nil_append]
            apply ih
            · have hd := length_drop_cons_le old hne a rest
              omega
            · rw [List.drop_drop]
              have heq : old.length + (i - new.length) = i := by omega
              rw [heq]
              exact hocc
      · rw [if_neg hp]
        cases i with
        | zero =>
          rw [List.drop_zero] at hocc
          exact absurd hocc hp
        | succ j =>
          rw [List.drop_succ_cons] at hocc ⊢
          exact ih rest j (by omega) hocc

theorem replaceAux_frame {α : Type} [DecidableEq α] (old new : List α) (hne : old ≠ [])
    (hlen : new.length = old.length) :
    ∀ fuel l p, l.length ≤ fuel →
      (∀ i, startsWith old (l.drop i) = true → p < i ∨ i + old.length ≤ p) →
      (replaceAux old new fuel l)[p]? = l[p]? := by
  intro fuel
  induction fuel with
  | zero =>
    intro l p h1 _
    have hl : l = [] := List.eq_nil_of_length_eq_zero (Nat.le_zero.1 h1)
    subst hl
    rfl
  | succ f ih =>
    intro l p h1 hout
    cases l with
    | nil => rfl
    | cons a rest =>
      simp only [List.length_cons] at h1
      have holen : 0 < old.length := List.length_pos.2 hne
      simp only [replaceAux]
      by_cases hp : startsWith old (a :: rest) = true
      · rw [if_pos hp]
        have hop := hout 0 (by rwa [List.drop_zero])
        have hople : old.length ≤ p := by omega
        rw [List.getElem?_append_right (by omega : new.length ≤ p)]
        have hr : ((a :: rest).drop old.length)[p - old.length]? = (a :: rest)[p]? := by
          rw [List.getElem?_drop]
          congr 1
          omega
        rw [← hr, hlen]
        apply ih
        · have hd := length_drop_cons_le old hne a rest
          omega
        · intro i hocc
          rw [List.drop_drop] at hocc
          have := hout (old.length + i) hocc
          omega
      · rw [if_neg hp]
        cases p with
        | zero => rw [List.getElem?_cons_zero, List.getElem?_cons_zero]
        | succ q =>
          rw [List.getElem?_cons_succ, List.getElem?_cons_succ]
          apply ih rest q (by omega)
          intro i hocc
          have := hout (i + 1) (by rwa [List.drop_succ_cons])
          omega

theorem replaceAux_append_occ {α : Type} [DecidableEq α] (old new : List α)
    (hne : old ≠ []) :
    ∀ a fuel b, (a ++ (old ++ b)).length ≤ fuel →
      (∀ i, i < a.length → startsWith old ((a ++ (old ++ b)).drop i) = false) →
      replaceAux old new fuel (a ++ (old ++ b))
        = a ++ (new ++ replaceAux old new b.length b) := by
  intro a
  induction a with
  | nil =>
    intro fuel b hfuel hfree
    obtain ⟨o, ot, rfl⟩ : ∃ o ot, old = o :: ot := by
      cases old with
      | nil => exact absurd rfl hne
      | cons o ot => exact ⟨o, ot, rfl⟩
    cases fuel with
    | zero => simp at hfuel
    | succ f =>
      simp only [List.nil_append, List.cons_append] at hfuel ⊢
      have hp : startsWith (o :: ot) (o :: (ot ++ b)) = true := by
        have := startsWith_self_append (o :: ot) b
        rwa [List.cons_append] at this
      simp only [replaceAux]
      rw [if_pos hp]
      congr 1
      simp only [List.length_cons, List.drop_succ_cons, List.drop_left]
      apply replaceAux_fuel (o :: ot) new hne
      · simp only [List.length_cons, List.length_append] at hfuel
        omega
      · exact le_rfl
  | cons x a2 iha =>
    intro fuel b hfuel hfree
    cases fuel with
    | zero => simp at hfuel
    | succ f =>
      simp only [List.cons_append] at hfuel hfree ⊢
      have h0 : startsWith old (x :: (a2 ++ (old ++ b))) = false := by
        have := hfree 0 (by simp)
        rwa [List.drop_zero] at this
      simp only [replaceAux]
      rw [if_neg (by simp [h0])]
      simp only [List.length_cons] at hfuel
      rw [iha f b (by omega) fun i hi => by
        have := hfree (i + 1) (by simp only [List.length_cons]; omega)
        rwa [List.drop_succ_cons] at this]

theorem pyReplace_eq_aux {α : Type} [DecidableEq α] (old new data : List α)
    (hne : old ≠ []) :
    pyReplace old new data = replaceAux old new data.length data := by
  cases old with
  | nil => exact absurd rfl hne
  | cons o ot => rfl

theorem pyReplace_length {α : Type} [DecidableEq α] (old new data : List α)
    (hne : old ≠ []) (hlen : new.length = old.length) :
    (pyReplace old new data).length = data.length := by
  rw [pyReplace_eq_aux old new data hne]
  exact replaceAux_length old new hne hlen data.length data le_rfl

theorem pyReplace_id {α : Type} [DecidableEq α] (old new data : List α)
    (hne : old ≠ []) (h : ∀ i, startsWith old (data.drop i) = false) :
    pyReplace old new data = data := by
  rw [pyReplace_eq_aux old new data hne]
  exact replaceAux_id old new data.length data h

theorem pyReplace_occ {α : Type} [DecidableEq α] (old new data : List α) (i : Nat)
    (hne : old ≠ []) (hlen : new.length = old.length)
    (hbf : ∀ j, j < old.length → 0 < j → old.take j ≠ old.drop (old.length - j))
    (hocc : startsWith old (data.drop i) = true) :
    startsWith new ((pyReplace old new data).drop i) = true := by
  rw [pyReplace_eq_aux old new data hne]
  exact replaceAux_occ old new hne hlen hbf data.length data i le_rfl hocc

theorem pyReplace_frame {α : Type} [DecidableEq α] (old new data : List α) (p : Nat)
    (hne : old ≠ []) (hlen : new.length = old.length)
    (hout : ∀ i, startsWith old (data.drop i) = true → p < i ∨ i + old.length ≤ p) :
    (pyReplace old new data)[p]? = data[p]? := by
  rw [pyReplace_eq_aux old new data hne]
  exact replaceAux_frame old new hne hlen data.length data p le_rfl hout

theorem pyReplace_append_occ {α : Type} [DecidableEq α] (old new a b : List α)
    (hne : old ≠ [])
    (hfree : ∀ i, i < a.length → startsWith old ((a ++ (old ++ b)).drop i) = false) :
    pyReplace old new (a ++ (old ++ b)) = a ++ (new ++ pyReplace old new b) := by
  rw [pyReplace_eq_aux old new _ hne, pyReplace_eq_aux old new b hne]
  exact replaceAux_append_occ old new hne a _ b le_rfl hfree

theorem pyReplace_take_occ {α : Type} [DecidableEq α] (old new data : List α) (i : Nat)
    (hne : old ≠ []) (hlen : new.length = old.length)
    (hbf : ∀ j, j < old.length → 0 < j → old.take j ≠ old.drop (old.length - j))
    (hocc : startsWith old (data.drop i) = true) :
    ((pyReplace old new data).drop i).take old.length = new := by
  have h := pyReplace_occ old new data i hne hlen hbf hocc
  have := startsWith_take_eq h
  rwa [hlen] at this

theorem old_pattern_ne : old_pattern ≠ [] := by decide

theorem soStr_ne : soStr ≠ [] := by decide

theorem new_pattern_len : new_pattern.length = old_pattern.length := by decide

set_option maxHeartbeats 1000000 in
theorem old_pattern_bf :
    ∀ j, j < old_pattern.length → 0 < j →
      old_pattern.take j ≠ old_pattern.drop (old_pattern.length - j) := by decide

theorem runMain_success (prog file_path : List Char) (data : List Nat)
    (fs : List Char → Option (List Nat)) (hfs : fs file_path = some data) :
    runMain [prog, file_path] fs =
      ⟨0,
       fun p => if p = (shorten_symbol_names file_path data).1
         then some (shorten_symbol_names file_path data).2 else fs p,
       [file_path],
       ["Fixed file written to: ".toList ++ (shorten_symbol_names file_path data).1,
        "Successfully shortened symbol names in ".toList
          ++ (shorten_symbol_names file_path data).1]⟩ := by
  have hget : ([prog, file_path].getD 1 []) = file_path := rfl
  simp only [runMain, List.length_cons, List.length_nil, hget, hfs]
  rw [if_neg (by omega)]

/-- C1: for every input byte buffer, the modified buffer produced by
`shorten_symbol_names` has length exactly equal to the input buffer's
length. -/
theorem C1_length_preservation (file_path : List Char) (data : List Nat) :
    ((shorten_symbol_names file_path data).2).length = data.length :=
  pyReplace_length old_pattern new_pattern data old_pattern_ne new_pattern_len

/-- C2: at every occurrence of the old pattern in the input buffer, the
same-offset region of the output buffer equals `.bss._ZN_short` followed by
exactly `len(old_pattern) - len(new_pattern_short)` zero bytes. -/
theorem C2_occurrence_replaced (file_path : List Char) (data : List Nat) (i : Nat)
    (hocc : startsWith old_pattern (data.drop i) = true) :
    (((shorten_symbol_names file_path data).2).drop i).take old_pattern.length
      = new_pattern_short
        ++ List.replicate (old_pattern.length - new_pattern_short.length) 0 :=
  pyReplace_take_occ old_pattern new_pattern data i
    old_pattern_ne new_pattern_len old_pattern_bf hocc

theorem C2_occurrence_replaced_witness :
    startsWith old_pattern (((0 : Nat) :: old_pattern).drop 1) = true ∧
    (((shorten_symbol_names "lib.so".toList ((0 : Nat) :: old_pattern)).2).drop 1).take
        old_pattern.length
      = new_pattern_short
        ++ List.replicate (old_pattern.length - new_pattern_short.length) 0 :=
  ⟨by decide,
   C2_occurrence_replaced "lib.so".toList ((0 : Nat) :: old_pattern) 1 (by decide)⟩

/-- C3: in a buffer with two or more occurrences of the old pattern, the
padded replacement is substituted at every occurrence, not only the
first. -/
theorem C3_every_occurrence (file_path : List Char) (data : List Nat) (i j : Nat)
    (hij : i < j)
    (hi : startsWith old_pattern (data.drop i) = true)
    (hj : startsWith old_pattern (data.drop j) = true) :
    (((shorten_symbol_names file_path data).2).drop i).take old_pattern.length
        = new_pattern ∧
    (((shorten_symbol_names file_path data).2).drop j).take old_pattern.length
        = new_pattern :=
  ⟨pyReplace_take_occ old_pattern new_pattern data i
     old_pattern_ne new_pattern_len old_pattern_bf hi,
   pyReplace_take_occ old_pattern new_pattern data j
     old_pattern_ne new_pattern_len old_pattern_bf hj⟩

set_option maxHeartbeats 1000000 in
theorem C3_every_occurrence_witness :
    (0 : Nat) < 152 ∧
    startsWith old_pattern ((old_pattern ++ old_pattern).drop 0) = true ∧
    startsWith old_pattern ((old_pattern ++ old_pattern).drop 152) = true ∧
    ((((shorten_symbol_names "lib.so".toList (old_pattern ++ old_pattern)).2).drop 0).take
        old_pattern.length = new_pattern ∧
     (((shorten_symbol_names "lib.so".toList (old_pattern ++ old_pattern)).2).drop 152).take
        old_pattern.length = new_pattern) :=
  ⟨by decide, by decide, by decide,
   C3_every_occurrence "lib.so".toList (old_pattern ++ old_pattern) 0 152
     (by decide) (by decide) (by decide)⟩

/-- C4: every byte of the output buffer at an offset not covered by an
occurrence of the old pattern equals the input byte at the same offset. -/
theorem C4_frame (file_path : List Char) (data : List Nat) (p : Nat)
    (hout : ∀ i, startsWith old_pattern (data.drop i) = true →
      p < i ∨ i + old_pattern.length ≤ p) :
    ((shorten_symbol_names file_path data).2)[p]? = data[p]? :=
  pyReplace_frame old_pattern new_pattern data p
    old_pattern_ne new_pattern_len hout

theorem C4_frame_witness :
    (∀ i, startsWith old_pattern (([1, 2, 3] : List Nat).drop i) = true →
      (1 : Nat) < i ∨ i + old_pattern.length ≤ 1) ∧
    ((shorten_symbol_names "lib.so".toList [1, 2, 3]).2)[1]?
      = ([1, 2, 3] : List Nat)[1]? := by
  have hfree : ∀ i, startsWith old_pattern (([1, 2, 3] : List Nat).drop i) = true →
      (1 : Nat) < i ∨ i + old_pattern.length ≤ 1 := by
    intro i h
    have hl := startsWith_length_le h
    rw [List.length_drop] at hl
    have ho : old_pattern.length = 152 := by decide
    rw [ho] at hl
    simp only [List.length_cons, List.length_nil] at hl
    omega
  exact ⟨hfree, C4_frame "lib.so".toList [1, 2, 3] 1 hfree⟩

/-- C5 (counterexample): on the path `a.sob.so`, which contains `.so`
twice, the code rewrites both occurrences, so the derived output path is
not the replace-only-the-first result the claim describes. -/
theorem C5_counterexample :
    (shorten_symbol_names "a.sob.so".toList []).1 = "a_fixed.sob_fixed.so".toList ∧
    replaceFirstSpec soStr fixedStr "a.sob.so".toList = "a_fixed.sob.so".toList ∧
    (shorten_symbol_names "a.sob.so".toList []).1
      ≠ replaceFirstSpec soStr fixedStr "a.sob.so".toList := by
  decide

/-- C5 (amended): the derived output path results from replacing every
occurrence of the literal substring `.so` with `_fixed.so` — Python's
`str.replace` replaces all occurrences — so a path containing `.so` twice
has both rewritten. -/
theorem C5_amended_every_so (a b c : List Char) (data : List Nat)
    (h1 : ∀ i, i < a.length →
      startsWith soStr ((a ++ (soStr ++ (b ++ (soStr ++ c)))).drop i) = false)
    (h2 : ∀ i, i < b.length →
      startsWith soStr ((b ++ (soStr ++ c)).drop i) = false)
    (h3 : ∀ i, startsWith soStr (c.drop i) = false) :
    (shorten_symbol_names (a ++ (soStr ++ (b ++ (soStr ++ c)))) data).1
      = a ++ (fixedStr ++ (b ++ (fixedStr ++ c))) := by
  show pyReplace soStr fixedStr (a ++ (soStr ++ (b ++ (soStr ++ c)))) = _
  rw [pyReplace_append_occ soStr fixedStr a (b ++ (soStr ++ c)) soStr_ne h1]
  rw [pyReplace_append_occ soStr fixedStr b c soStr_ne h2]
  rw [pyReplace_id soStr fixedStr c soStr_ne h3]

theorem C5_amended_every_so_witness :
    (shorten_symbol_names
        ("a".toList ++ (soStr ++ ("b".toList ++ (soStr ++ ([] : List Char))))) []).1
      = "a".toList ++ (fixedStr ++ ("b".toList ++ (fixedStr ++ ([] : List Char)))) := by
  refine C5_amended_every_so "a".toList "b".toList [] [] (by decide) (by decide) ?_
  intro i
  rw [List.drop_nil]
  decide

/-- C6: a path containing no `.so` is left unchanged by the output-path
derivation, so the modified buffer is written over the input path itself. -/
theorem C6_inplace_overwrite (prog file_path : List Char) (data : List Nat)
    (fs : List Char → Option (List Nat))
    (hfs : fs file_path = some data)
    (hno : ∀ i, startsWith soStr (file_path.drop i) = false) :
    (shorten_symbol_names file_path data).1 = file_path ∧
    (runMain [prog, file_path] fs).fs file_path
      = some (pyReplace old_pattern new_pattern data) := by
  have hpath : (shorten_symbol_names file_path data).1 = file_path :=
    pyReplace_id soStr fixedStr file_path soStr_ne hno
  refine ⟨hpath, ?_⟩
  rw [runMain_success prog file_path data fs hfs]
  simp only [hpath, if_pos rfl]
  rfl

theorem C6_inplace_overwrite_witness :
    (shorten_symbol_names "libexample".toList [1, 2]).1 = "libexample".toList ∧
    (runMain ["fix-symbols.py".toList, "libexample".toList]
        (fun p => if p = "libexample".toList then some [1, 2] else none)).fs
        "libexample".toList
      = some (pyReplace old_pattern new_pattern [1, 2]) :=
  C6_inplace_overwrite "fix-symbols.py".toList "libexample".toList [1, 2]
    (fun p => if p = "libexample".toList then some [1, 2] else none)
    (by decide)
    (noOccAll soStr "libexample".toList soStr_ne (by decide))

/-- C7: when the old pattern does not occur in the input buffer, the run
raises no error (exit status 0) and the buffer written under the derived
output path is byte-identical to the input buffer. -/
theorem C7_absent_pattern_noop (prog file_path : List Char) (data : List Nat)
    (fs : List Char → Option (List Nat))
    (hfs : fs file_path = some data)
    (hno : ∀ i, startsWith old_pattern (data.drop i) = false) :
    (shorten_symbol_names file_path data).2 = data ∧
    (runMain [prog, file_path] fs).exitCode = 0 ∧
    (runMain [prog, file_path] fs).fs ((shorten_symbol_names file_path data).1)
      = some data := by
  have hdata : (shorten_symbol_names file_path data).2 = data :=
    pyReplace_id old_pattern new_pattern data old_pattern_ne hno
  rw [runMain_success prog file_path data fs hfs]
  refine ⟨hdata, rfl, ?_⟩
  simp [hdata]

theorem C7_absent_pattern_noop_witness :
    (shorten_symbol_names "lib.so".toList [1, 2, 3]).2 = [1, 2, 3] ∧
    (runMain ["fix-symbols.py".toList, "lib.so".toList]
        (fun p => if p = "lib.so".toList then some [1, 2, 3] else none)).exitCode = 0 ∧
    (runMain ["fix-symbols.py".toList, "lib.so".toList]
        (fun p => if p = "lib.so".toList then some [1, 2, 3] else none)).fs
        ((shorten_symbol_names "lib.so".toList [1, 2, 3]).1)
      = some [1, 2, 3] :=
  C7_absent_pattern_noop "fix-symbols.py".toList "lib.so".toList [1, 2, 3]
    (fun p => if p = "lib.so".toList then some [1, 2, 3] else none)
    (by decide)
    (noOccAll old_pattern [1, 2, 3] old_pattern_ne (by decide))

/-- C8: with exactly one positional argument naming a path that does not
exist, the program prints an error message and exits with status 1, and
the file system is untouched with nothing read. -/
theorem C8_missing_input (prog file_path : List Char)
    (fs : List Char → Option (List Nat)) (hnone : fs file_path = none) :
    (runMain [prog, file_path] fs).exitCode = 1 ∧
    (runMain [prog, file_path] fs).fs = fs ∧
    (runMain [prog, file_path] fs).reads = [] ∧
    (runMain [prog, file_path] fs).printed
      = ["Error: File ".toList ++ file_path ++ " not found".toList] := by
  have hget : ([prog, file_path].getD 1 []) = file_path := rfl
  have h : runMain [prog, file_path] fs
      = ⟨1, fs, [], ["Error: File ".toList ++ file_path ++ " not found".toList]⟩ := by
    simp only [runMain, List.length_cons, List.length_nil, hget, hnone]
    rw [if_neg (by omega)]
  rw [h]
  exact ⟨rfl, rfl, rfl, rfl⟩

theorem C8_missing_input_witness :
    (runMain ["fix-symbols.py".toList, "missing.so".toList]
        (fun _ => none)).exitCode = 1 ∧
    (runMain ["fix-symbols.py".toList, "missing.so".toList]
        (fun _ => none)).fs = (fun _ => none) ∧
    (runMain ["fix-symbols.py".toList, "missing.so".toList]
        (fun _ => none)).reads = [] ∧
    (runMain ["fix-symbols.py".toList, "missing.so".toList]
        (fun _ => none)).printed
      = ["Error: File ".toList ++ "missing.so".toList ++ " not found".toList] :=
  C8_missing_input "fix-symbols.py".toList "missing.so".toList (fun _ => none) rfl

/-- C9: with zero positional arguments or with two or more positional
arguments (`len(sys.argv) ≠ 2`), the program prints the usage message and
exits with status 1, reading no file and leaving the file system
untouched. -/
theorem C9_usage_error (argv : List (List Char))
    (fs : List Char → Option (List Nat))
    (h : argv.length = 1 ∨ 3 ≤ argv.length) :
    (runMain argv fs).exitCode = 1 ∧
    (runMain argv fs).fs = fs ∧
    (runMain argv fs).reads = [] ∧
    (runMain argv fs).printed
      = ["Usage: python fix-symbols.py <path_to_so_file>".toList] := by
  have hh : runMain argv fs
      = ⟨1, fs, [], ["Usage: python fix-symbols.py <path_to_so_file>".toList]⟩ := by
    simp only [runMain]
    rw [if_pos (by omega)]
  rw [hh]
  exact ⟨rfl, rfl, rfl, rfl⟩

theorem C9_usage_error_witness :
    ((["fix-symbols.py".toList] : List (List Char)).length = 1 ∨
      3 ≤ (["fix-symbols.py".toList] : List (List Char)).length) ∧
    ((runMain ["fix-symbols.py".toList] (fun _ => none)).exitCode = 1 ∧
     (runMain ["fix-symbols.py".toList] (fun _ => none)).fs = (fun _ => none) ∧
     (runMain ["fix-symbols.py".toList] (fun _ => none)).reads = [] ∧
     (runMain ["fix-symbols.py".toList] (fun _ => none)).printed
       = ["Usage: python fix-symbols.py <path_to_so_file>".toList]) :=
  ⟨Or.inl rfl,
   C9_usage_error ["fix-symbols.py".toList] (fun _ => none) (Or.inl rfl)⟩

/-- C10 (counterexample): the hardcoded old search pattern is not 151 bytes
long. -/
theorem C10_counterexample : old_pattern.length ≠ 151 := by decide

/-- C10 (amended): the span occupied by the hardcoded old search pattern is
152 bytes, so each replaced region consists of the 14-byte `.bss._ZN_short`
followed by 138 null bytes filling out a 152-byte span. -/
theorem C10_amended_span :
    old_pattern.length = 152 ∧
    new_pattern_short.length = 14 ∧
    new_pattern = new_pattern_short ++ List.replicate 138 0 ∧
    new_pattern.length = 152 := by
  decide

end FixSymbols
